import Mathlib

/-!
Shallow embedding of `scripts/ci/bench-compare.py`, a script that compares
two Criterion benchmark baselines and reports regressions.

Modelling conventions:
* Python floats (benchmark timings, thresholds, percentages) are modelled by
  the rationals `ℚ`; `round(x, 2)` is modelled by round-half-to-even at two
  decimal places, the rounding mode Python's `round` uses.
* Python dicts keyed by strings are modelled by association lists with
  Python's insertion-order/overwrite semantics (`dictInsert`, `dictGet`).
* Python strings are Lean `String`s; `str.split(os.sep)`, `os.sep.join` and
  `str.startswith` are modelled character-exactly on `List Char`
  (`splitChars`, `joinSepChars`, `startsWithChars`); `os.sep` is `'/'`.
* A run of `os.walk` is modelled by the list of directories that directly
  contain `estimates.json`, each given as the list of path segments of its
  path relative to the Criterion root, paired with the parsed
  `mean.point_estimate` value of that file.
* Exceptions that abort the run (`sys.exit(1)`, `ZeroDivisionError`) are
  modelled by `Except RunError`; an `Except.error` result means the process
  terminates with nonzero status and writes no output artifact.
-/

namespace BenchCompare

/-- Python dict assignment `d[k] = v`: overwrites the value at an existing
key in place, otherwise appends the new binding at the end. -/
def dictInsert : List (String × ℚ) → String → ℚ → List (String × ℚ)
  | [], k, v => [(k, v)]
  | (k', v') :: rest, k, v =>
    if k' = k then (k', v) :: rest else (k', v') :: dictInsert rest k v

/-- Python `d.get(k)`: the value bound to `k`, or `None`. -/
def dictGet : List (String × ℚ) → String → Option ℚ
  | [], _ => none
  | (k', v) :: rest, k => if k' = k then some v else dictGet rest k

/-- Python `d.keys()` in insertion order. -/
def dictKeys (d : List (String × ℚ)) : List String := d.map Prod.fst

/-- Prepend a character to the first piece of a split (the list of pieces
is never empty; the `[]` case is unreachable). -/
def consPiece (c : Char) : List (List Char) → List (List Char)
  | [] => [[c]]
  | h :: t => (c :: h) :: t

/-- Python `s.split(sep)` for a single-character separator, on the character
list of the string: always returns at least one (possibly empty) piece. -/
def splitChars (sep : Char) : List Char → List (List Char)
  | [] => [[]]
  | c :: cs =>
    if c = sep then [] :: splitChars sep cs else consPiece c (splitChars sep cs)

/-- Python `sep.join(pieces)` for the one-character separator `'/'`,
on character lists. -/
def joinSepChars : List (List Char) → List Char
  | [] => []
  | [x] => x
  | x :: y :: ys => x ++ '/' :: joinSepChars (y :: ys)

/-- `os.sep.join` of a list of segment strings (with `os.sep = "/"`). -/
def joinSep (l : List String) : String := ⟨joinSepChars (l.map String.data)⟩

/-- Python `s.startswith(pre)` on character lists: `startsWithChars pre s`. -/
def startsWithChars : List Char → List Char → Bool
  | [], _ => true
  | _ :: _, [] => false
  | a :: as, b :: bs => a = b && startsWithChars as bs

/-- Python string `<` (lexicographic by code point), on character lists. -/
def lexLt : List Char → List Char → Bool
  | _, [] => false
  | [], _ :: _ => true
  | a :: as, b :: bs => if a < b then true else if b < a then false else lexLt as bs

/-- Python string `<` on `String`s. -/
def strLtB (s t : String) : Bool := lexLt s.data t.data

/-- Python `parts.index(name)`: index of the first occurrence
(only meaningful when `name ∈ parts`). -/
def pyIndex (name : String) : List String → Nat
  | [] => 0
  | p :: ps => if p = name then 0 else pyIndex name ps + 1

/-- `find_baselines`: walk the Criterion tree and build
`{bench_key: mean point estimate}` for one baseline name.  For each directory
that directly contains `estimates.json` (a walk entry), the directory's
relative-path segments are searched for the baseline name; the bench key is
the `"/"`-join of the segments before its first occurrence, and entries whose
key would be empty are skipped.  `findStep` is the loop body for one walk
entry; `find_baselines` folds it over the walk. -/
def findStep (baseline_name : String) (acc : List (String × ℚ))
    (e : List String × ℚ) : List (String × ℚ) :=
  if baseline_name ∈ e.1 then
    let bench_key := joinSep (e.1.take (pyIndex baseline_name e.1))
    if bench_key = "" then acc else dictInsert acc bench_key e.2
  else acc

/-- `find_baselines`: the walk loop, starting from the empty dict. -/
def find_baselines (walk : List (List String × ℚ)) (baseline_name : String) :
    List (String × ℚ) :=
  walk.foldl (findStep baseline_name) []

/-- `is_gitr_bench`: true iff some `"/"`-separated component of the key is
`"gitr"`, or starts with `"gitr_"`, or starts with `"gitr/"`. -/
def is_gitr_bench (bench_key : String) : Bool :=
  (splitChars '/' bench_key.data).any fun p =>
    p = "gitr".data || startsWithChars "gitr_".data p ||
      startsWithChars "gitr/".data p

/-- The five outcome classifications of a comparison result. -/
inductive Status where
  | NEW
  | REMOVED
  | REGRESSION
  | IMPROVEMENT
  | OK
deriving DecidableEq, Repr

/-- One element of the `results` list. -/
structure CompResult where
  benchmark : String
  base_ns : Option ℚ
  pr_ns : Option ℚ
  pct_change : Option ℚ
  status : Status
deriving DecidableEq, Repr

/-- Round half to even to an integer (the rounding Python's `round` uses). -/
def rhe (q : ℚ) : ℤ :=
  if q - ⌊q⌋ < 1/2 then ⌊q⌋
  else if 1/2 < q - ⌊q⌋ then ⌊q⌋ + 1
  else if 2 ∣ ⌊q⌋ then ⌊q⌋ else ⌊q⌋ + 1

/-- Python `round(q, 2)`. -/
def round2 (q : ℚ) : ℚ := (rhe (q * 100) : ℚ) / 100

/-- The threshold classification applied when both timings are present:
`pct > threshold` → REGRESSION, else `pct < -threshold` → IMPROVEMENT,
else OK. -/
def classify (threshold pct : ℚ) : Status :=
  if pct > threshold then .REGRESSION
  else if pct < -threshold then .IMPROVEMENT
  else .OK

/-- Errors that abort the run with a nonzero exit status. -/
inductive RunError where
  | missingBase (name dir : String)
  | missingPr (name dir : String)
  | zeroDiv (key : String)
deriving DecidableEq, Repr

/-- The body of the per-key loop in `main`: skip keys that are not gitr
benchmarks, classify the rest, and raise `ZeroDivisionError` when both
timings are present and the base timing is zero. -/
def compareKey (base_results pr_results : List (String × ℚ)) (threshold : ℚ)
    (key : String) : Except RunError (Option CompResult) :=
  if is_gitr_bench key then
    match dictGet base_results key, dictGet pr_results key with
    | none, pr_ns => .ok (some ⟨key, none, pr_ns, none, .NEW⟩)
    | some base_ns, none => .ok (some ⟨key, some base_ns, none, none, .REMOVED⟩)
    | some base_ns, some pr_ns =>
      if base_ns = 0 then .error (.zeroDiv key)
      else
        let pct := (pr_ns - base_ns) / base_ns * 100
        .ok (some ⟨key, some base_ns, some pr_ns, some (round2 pct),
          classify threshold pct⟩)
  else .ok none

/-- The per-key loop of `main` over a list of keys. -/
def compareAll (base_results pr_results : List (String × ℚ)) (threshold : ℚ) :
    List String → Except RunError (List CompResult)
  | [] => .ok []
  | k :: ks =>
    match compareKey base_results pr_results threshold k with
    | .error e => .error e
    | .ok none => compareAll base_results pr_results threshold ks
    | .ok (some r) =>
      match compareAll base_results pr_results threshold ks with
      | .error e => .error e
      | .ok rest => .ok (r :: rest)

/-- Insert a key into a list sorted ascending by Python string order. -/
def insertSorted (k : String) : List String → List String
  | [] => [k]
  | x :: xs => if strLtB k x then k :: x :: xs else x :: insertSorted k xs

/-- Python `sorted` on a list of distinct strings (any correct ascending
sort computes the same list; insertion sort is used here). -/
def sortKeys (l : List String) : List String := l.foldr insertSorted []

/-- `all_keys = sorted(set(base) | set(pr))`. -/
def allKeys (base_results pr_results : List (String × ℚ)) : List String :=
  sortKeys ((dictKeys base_results ++ dictKeys pr_results).dedup)

/-- The `results` list of `main`: the per-key loop over the sorted union of
the two key sets. -/
def buildResults (base_results pr_results : List (String × ℚ))
    (threshold : ℚ) : Except RunError (List CompResult) :=
  compareAll base_results pr_results threshold (allKeys base_results pr_results)

/-- The string tag stored in the `status` field of the JSON document. -/
def statusStr : Status → String
  | .NEW => "NEW"
  | .REMOVED => "REMOVED"
  | .REGRESSION => "REGRESSION"
  | .IMPROVEMENT => "IMPROVEMENT"
  | .OK => "OK"

/-- Two-digit zero-padded decimal rendering of a natural number below 100. -/
def pad2 (n : Nat) : String := if n < 10 then "0" ++ toString n else toString n

/-- Python `f-string` formatting `:.2f`, modelled on the rational value:
round half to even at two decimals and print exactly two decimals. -/
def fmt2 (q : ℚ) : String :=
  (if rhe (q * 100) < 0 then "-" else "") ++
    toString ((rhe (q * 100)).natAbs / 100) ++ "." ++
    pad2 ((rhe (q * 100)).natAbs % 100)

/-- Python `f-string` formatting `:.0f`, modelled on the rational value. -/
def fmt0 (q : ℚ) : String :=
  (if rhe q < 0 then "-" else "") ++ toString (rhe q).natAbs

/-- `format_ns`: render nanoseconds in a human-scaled unit. -/
def format_ns (ns : ℚ) : String :=
  if ns ≥ 1000000000 then fmt2 (ns / 1000000000) ++ "s"
  else if ns ≥ 1000000 then fmt2 (ns / 1000000) ++ "ms"
  else if ns ≥ 1000 then fmt2 (ns / 1000) ++ "us"
  else fmt0 ns ++ "ns"

/-- Decimal rendering of a reported value (Python `f"{x}"` on a float that
is an exact multiple of 1/100, the form every `pct_change` has): the
number's own minus sign iff negative, never a plus sign, and one or two
fractional digits as Python's shortest float `repr` prints them. -/
def reprPct (q : ℚ) : String :=
  (if rhe (q * 100) < 0 then "-" else "") ++
    toString ((rhe (q * 100)).natAbs / 100) ++ "." ++
    (if (rhe (q * 100)).natAbs % 10 = 0 then
      toString ((rhe (q * 100)).natAbs % 100 / 10)
    else pad2 ((rhe (q * 100)).natAbs % 100))

/-- The change cell of a regressions-table row:
`f"+{r['pct_change']}%"` — an unconditional leading plus sign. -/
def regressionChangeCell (r : CompResult) : String :=
  "+" ++ reprPct (r.pct_change.getD 0) ++ "%"

/-- The change cell of an improvements-table row:
`f"{r['pct_change']}%"` — never a leading plus sign. -/
def improvementChangeCell (r : CompResult) : String :=
  reprPct (r.pct_change.getD 0) ++ "%"

/-- The change cell of a row of the full results table: a leading plus sign
exactly when `pct_change` is positive, the status tag when it is null. -/
def allResultsChangeCell (r : CompResult) : String :=
  match r.pct_change with
  | some pc => (if pc > 0 then "+" else "") ++ reprPct pc ++ "%"
  | none => statusStr r.status

/-- One per-regression line of the console summary:
`f"  {r['benchmark']}: +{r['pct_change']}%"`. -/
def consoleRegressionLine (r : CompResult) : String :=
  "  " ++ r.benchmark ++ ": +" ++ reprPct (r.pct_change.getD 0) ++ "%"

/-- One row of the regressions table. -/
def regressionRow (r : CompResult) : String :=
  "| `" ++ r.benchmark ++ "` | " ++ format_ns (r.base_ns.getD 0) ++ " | " ++
    format_ns (r.pr_ns.getD 0) ++ " | " ++ regressionChangeCell r ++ " |"

/-- One row of the improvements table. -/
def improvementRow (r : CompResult) : String :=
  "| `" ++ r.benchmark ++ "` | " ++ format_ns (r.base_ns.getD 0) ++ " | " ++
    format_ns (r.pr_ns.getD 0) ++ " | " ++ improvementChangeCell r ++ " |"

/-- One row of the full results table. -/
def allResultsRow (r : CompResult) : String :=
  "| `" ++ r.benchmark ++ "` | " ++
    (match r.base_ns with | some b => format_ns b | none => "-") ++ " | " ++
    (match r.pr_ns with | some p => format_ns p | none => "-") ++ " | " ++
    allResultsChangeCell r ++ " | " ++ statusStr r.status ++ " |"

/-- The structured JSON document `bench-results.json`. -/
structure JsonOutput where
  has_regression : Bool
  threshold : ℚ
  total : Nat
  regressions : Nat
  improvements : Nat
  results : List CompResult
deriving DecidableEq, Repr

/-- Build the JSON document from the results list and the threshold. -/
def mkJsonOutput (threshold : ℚ) (results : List CompResult) : JsonOutput :=
  { has_regression := (results.filter fun r => r.status = .REGRESSION) ≠ []
    threshold := threshold
    total := results.length
    regressions := (results.filter fun r => r.status = .REGRESSION).length
    improvements := (results.filter fun r => r.status = .IMPROVEMENT).length
    results := results }

/-- The lines of the Markdown document `bench-results.md`. -/
def mdLines (threshold : ℚ) (results : List CompResult) : List String :=
  let regressions := results.filter fun r => r.status = .REGRESSION
  let improvements := results.filter fun r => r.status = .IMPROVEMENT
  let new_benches := results.filter fun r => r.status = .NEW
  let removed_benches := results.filter fun r => r.status = .REMOVED
  ["## Benchmark Results",
   "**Threshold**: " ++ reprPct threshold ++ "% | **Status**: " ++
     (if regressions ≠ [] then "FAIL" else "PASS"),
   "### Summary: " ++ toString results.length ++ " benchmarks, " ++
     toString regressions.length ++ " regressions, " ++
     toString improvements.length ++ " improvements",
   ""] ++
  (if regressions ≠ [] then
    ["### Regressions", "", "| Benchmark | Base | PR | Change |",
     "|-----------|------|-----|--------|"] ++
      regressions.map regressionRow ++ [""]
  else []) ++
  (if improvements ≠ [] then
    ["### Improvements", "", "| Benchmark | Base | PR | Change |",
     "|-----------|------|-----|--------|"] ++
      improvements.map improvementRow ++ [""]
  else []) ++
  (if new_benches ≠ [] then
    ["**New benchmarks**: " ++
      String.intercalate ", " (new_benches.map fun r => "`" ++ r.benchmark ++ "`"),
     ""]
  else []) ++
  (if removed_benches ≠ [] then
    ["**Removed benchmarks**: " ++
      String.intercalate ", " (removed_benches.map fun r => "`" ++ r.benchmark ++ "`"),
     ""]
  else []) ++
  ["<details>", "<summary>All Results</summary>", "",
   "| Benchmark | Base | PR | Change | Status |",
   "|-----------|------|-----|--------|--------|"] ++
  results.map allResultsRow ++
  ["", "</details>", ""]

/-- The lines printed to standard output at the end of a successful run. -/
def consoleLines (threshold : ℚ) (results : List CompResult) : List String :=
  let regressions := results.filter fun r => r.status = .REGRESSION
  let improvements := results.filter fun r => r.status = .IMPROVEMENT
  ["Compared " ++ toString results.length ++ " gitr benchmarks (threshold: " ++
     reprPct threshold ++ "%)",
   "  Regressions:  " ++ toString regressions.length,
   "  Improvements: " ++ toString improvements.length] ++
  (if regressions ≠ [] then
    ["", "Regressed benchmarks:"] ++ regressions.map consoleRegressionLine
  else [])

/-- Everything a successful run writes: the JSON document
(`bench-results.json`), the Markdown lines (`bench-results.md`) and the
console summary.  An aborted run produces none of these. -/
structure Artifacts where
  json : JsonOutput
  md : List String
  console : List String
deriving DecidableEq, Repr

/-- The whole pipeline of `main` after argument parsing: load both
baselines, abort with status 1 if either is empty, build the results list
(which may abort on a zero base timing), and render the three outputs. -/
def run (walk : List (List String × ℚ)) (criterion_dir : String)
    (base pr : String) (threshold : ℚ) : Except RunError Artifacts :=
  let base_results := find_baselines walk base
  let pr_results := find_baselines walk pr
  if base_results = [] then .error (.missingBase base criterion_dir)
  else if pr_results = [] then .error (.missingPr pr criterion_dir)
  else
    match buildResults base_results pr_results threshold with
    | .error e => .error e
    | .ok results =>
      .ok ⟨mkJsonOutput threshold results, mdLines threshold results,
        consoleLines threshold results⟩

/-! ### The spec-side definitions used by the refinement claims -/

/-- The simpler subsystem predicate of the refinement claim: a component
equals `"gitr"` or starts with `"gitr_"` (no separator branch). -/
def is_gitr_bench_simple (bench_key : String) : Bool :=
  (splitChars '/' bench_key.data).any fun p =>
    p = "gitr".data || startsWithChars "gitr_".data p

/-- Lexicographic order over the sequence of segments (each segment compared
by code points), the order the ordering claim names. -/
def segLexLt : List (List Char) → List (List Char) → Bool
  | _, [] => false
  | [], _ :: _ => true
  | a :: as, b :: bs =>
    if lexLt a b then true else if lexLt b a then false else segLexLt as bs

/-! ### Order lemmas for the key sort -/

theorem lexLt_irrefl (a : List Char) : lexLt a a = false := by
  induction a with
  | nil => rfl
  | cons c cs ih => simp [lexLt, ih]

theorem lexLt_trans {a b c : List Char} (hab : lexLt a b = true)
    (hbc : lexLt b c = true) : lexLt a c = true := by
  induction c generalizing a b with
  | nil => cases b <;> simp [lexLt] at hbc
  | cons z zs ih =>
    cases a with
    | nil => rfl
    | cons x xs =>
      cases b with
      | nil => simp [lexLt] at hab
      | cons y ys =>
        simp only [lexLt] at hab hbc ⊢
        split at hab
        · rename_i hxy
          split at hbc
          · rename_i hyz
            simp [lt_trans hxy hyz]
          · split at hbc
            · exact absurd hbc (by simp)
            · rename_i h1 h2
              have : y = z := le_antisymm (not_lt.mp h2) (not_lt.mp h1)
              subst this
              simp [hxy]
        · split at hab
          · exact absurd hab (by simp)
          · rename_i h1 h2
            have hxy : x = y := le_antisymm (not_lt.mp h2) (not_lt.mp h1)
            subst hxy
            split at hbc
            · rename_i hyz
              simp [hyz]
            · split at hbc
              · exact absurd hbc (by simp)
              · rename_i h3 h4
                have : x = z := le_antisymm (not_lt.mp h4) (not_lt.mp h3)
                subst this
                simp only [lt_irrefl, if_false]
                exact ih hab hbc

theorem lexLt_total (a b : List Char) :
    lexLt a b = true ∨ a = b ∨ lexLt b a = true := by
  induction a generalizing b with
  | nil =>
    cases b with
    | nil => exact Or.inr (Or.inl rfl)
    | cons y ys => exact Or.inl rfl
  | cons x xs ih =>
    cases b with
    | nil => exact Or.inr (Or.inr rfl)
    | cons y ys =>
      rcases lt_trichotomy x y with hxy | hxy | hxy
      · exact Or.inl (by simp [lexLt, hxy])
      · subst hxy
        rcases ih ys with h | h | h
        · refine Or.inl ?_
          simp only [lexLt]
          rw [if_neg (lt_irrefl x), if_neg (lt_irrefl x)]
          exact h
        · exact Or.inr (Or.inl (by rw [h]))
        · refine Or.inr (Or.inr ?_)
          simp only [lexLt]
          rw [if_neg (lt_irrefl x), if_neg (lt_irrefl x)]
          exact h
      · exact Or.inr (Or.inr (by simp [lexLt, hxy]))

/-- The non-strict order the sorted results satisfy: `s` precedes `t` when
`t` is not strictly below `s` in Python string order. -/
def strLeB (s t : String) : Bool := !strLtB t s

theorem strLeB_trans {a b c : String} (hab : strLeB a b = true)
    (hbc : strLeB b c = true) : strLeB a c = true := by
  simp only [strLeB, strLtB, Bool.not_eq_true'] at *
  cases hca : lexLt c.data a.data with
  | false => rfl
  | true =>
    exfalso
    rcases lexLt_total a.data b.data with h | h | h
    · exact absurd (lexLt_trans hca h) (by simp [hbc])
    · rw [h] at hca
      simp [hca] at hbc
    · simp [h] at hab

theorem lexLt_asymm {a b : List Char} (h : lexLt a b = true) :
    lexLt b a = false := by
  cases hba : lexLt b a with
  | false => rfl
  | true => exact absurd (lexLt_trans h hba) (by simp [lexLt_irrefl])

theorem strLeB_of_strLtB {a b : String} (h : strLtB a b = true) :
    strLeB a b = true := by
  simp only [strLeB, strLtB] at *
  simp [lexLt_asymm h]

theorem strLeB_of_not_strLtB {a b : String} (h : strLtB b a = false) :
    strLeB a b = true := by
  simp [strLeB, h]

theorem mem_insertSorted {x k : String} {l : List String} :
    x ∈ insertSorted k l ↔ x = k ∨ x ∈ l := by
  induction l with
  | nil => simp [insertSorted]
  | cons y ys ih =>
    simp only [insertSorted]
    split
    · simp
    · simp only [List.mem_cons, ih]
      tauto

theorem count_insertSorted (x k : String) (l : List String) :
    (insertSorted k l).count x = l.count x + (if k = x then 1 else 0) := by
  induction l with
  | nil => simp [insertSorted, List.count_cons]
  | cons y ys ih =>
    simp only [insertSorted]
    split
    · simp [List.count_cons, beq_iff_eq]
    · simp only [List.count_cons, beq_iff_eq, ih]
      omega

theorem pairwise_insertSorted {k : String} {l : List String}
    (h : l.Pairwise fun a b => strLeB a b = true) :
    (insertSorted k l).Pairwise fun a b => strLeB a b = true := by
  induction l with
  | nil => simp [insertSorted]
  | cons y ys ih =>
    simp only [insertSorted]
    split
    · rename_i hky
      refine List.Pairwise.cons ?_ h
      intro z hz
      rcases List.mem_cons.mp hz with rfl | hz
      · exact strLeB_of_strLtB hky
      · exact strLeB_trans (strLeB_of_strLtB hky)
          ((List.pairwise_cons.mp h).1 z hz)
    · rename_i hky
      rcases List.pairwise_cons.mp h with ⟨hy, hys⟩
      refine List.Pairwise.cons ?_ (ih hys)
      intro z hz
      rcases mem_insertSorted.mp hz with rfl | hz
      · exact strLeB_of_not_strLtB (Bool.eq_false_iff.mpr hky)
      · exact hy z hz

theorem sortKeys_pairwise (l : List String) :
    (sortKeys l).Pairwise fun a b => strLeB a b = true := by
  induction l with
  | nil => simp [sortKeys]
  | cons x xs ih => exact pairwise_insertSorted ih

theorem mem_sortKeys {x : String} {l : List String} :
    x ∈ sortKeys l ↔ x ∈ l := by
  induction l with
  | nil => simp [sortKeys]
  | cons y ys ih =>
    show x ∈ insertSorted y (sortKeys ys) ↔ _
    rw [mem_insertSorted]
    simp [ih, eq_comm]

theorem count_sortKeys (x : String) (l : List String) :
    (sortKeys l).count x = l.count x := by
  induction l with
  | nil => rfl
  | cons y ys ih =>
    show (insertSorted y (sortKeys ys)).count x = _
    rw [count_insertSorted, ih, List.count_cons]
    simp [beq_iff_eq]

theorem nodup_sortKeys {l : List String} (h : l.Nodup) :
    (sortKeys l).Nodup := by
  rw [List.nodup_iff_count_le_one] at h ⊢
  intro a
  rw [count_sortKeys]
  exact h a

theorem mem_allKeys {key : String} {base_results pr_results : List (String × ℚ)} :
    key ∈ allKeys base_results pr_results ↔
      key ∈ dictKeys base_results ∨ key ∈ dictKeys pr_results := by
  rw [allKeys, mem_sortKeys, List.mem_dedup, List.mem_append]

theorem nodup_allKeys (base_results pr_results : List (String × ℚ)) :
    (allKeys base_results pr_results).Nodup :=
  nodup_sortKeys (List.nodup_dedup _)

theorem allKeys_pairwise (base_results pr_results : List (String × ℚ)) :
    (allKeys base_results pr_results).Pairwise fun a b => strLeB a b = true :=
  sortKeys_pairwise _

/-! ### Dict lemmas -/

theorem dictGet_eq_none_iff {d : List (String × ℚ)} {k : String} :
    dictGet d k = none ↔ k ∉ dictKeys d := by
  induction d with
  | nil => simp [dictGet, dictKeys]
  | cons e rest ih =>
    obtain ⟨k', v⟩ := e
    simp only [dictGet, dictKeys, List.map_cons, List.mem_cons]
    split
    · rename_i h
      subst h
      simp
    · rename_i h
      simp only [dictKeys] at ih
      rw [ih]
      constructor
      · intro hk hor
        rcases hor with rfl | hm
        · exact h rfl
        · exact hk hm
      · intro hk hm
        exact hk (Or.inr hm)

theorem dictGet_isSome_iff {d : List (String × ℚ)} {k : String} :
    (dictGet d k).isSome = true ↔ k ∈ dictKeys d := by
  constructor
  · intro hs
    by_contra hk
    rw [← dictGet_eq_none_iff] at hk
    rw [hk] at hs
    simp at hs
  · intro hk
    cases h : dictGet d k with
    | none => exact absurd hk (dictGet_eq_none_iff.mp h)
    | some v => rfl

theorem mem_dictKeys_dictInsert {d : List (String × ℚ)} {k x : String} {v : ℚ} :
    x ∈ dictKeys (dictInsert d k v) ↔ x ∈ dictKeys d ∨ x = k := by
  induction d with
  | nil => simp [dictInsert, dictKeys]
  | cons e rest ih =>
    obtain ⟨k', v'⟩ := e
    simp only [dictInsert]
    split
    · rename_i h
      subst h
      simp only [dictKeys, List.map_cons, List.mem_cons]
      tauto
    · simp only [dictKeys, List.map_cons, List.mem_cons] at ih ⊢
      rw [ih]
      tauto

/-! ### Split/join lemmas -/

theorem splitChars_ne_nil (sep : Char) (l : List Char) :
    splitChars sep l ≠ [] := by
  cases l with
  | nil => simp [splitChars]
  | cons c cs =>
    simp only [splitChars]
    split
    · simp
    · cases h : splitChars sep cs <;> simp [consPiece]

theorem not_mem_of_mem_splitChars {sep : Char} {l : List Char} :
    ∀ p ∈ splitChars sep l, sep ∉ p := by
  induction l with
  | nil => simp [splitChars]
  | cons c cs ih =>
    intro p hp
    simp only [splitChars] at hp
    split at hp
    · rcases List.mem_cons.mp hp with rfl | hp
      · simp
      · exact ih p hp
    · rename_i hc
      cases h : splitChars sep cs with
      | nil => exact absurd h (splitChars_ne_nil sep cs)
      | cons h1 t =>
        rw [h, consPiece] at hp
        rcases List.mem_cons.mp hp with rfl | hp
        · intro hmem
          rcases List.mem_cons.mp hmem with rfl | hmem
          · exact hc rfl
          · exact ih h1 (h ▸ List.mem_cons_self h1 t) hmem
        · exact ih p (h ▸ List.mem_cons_of_mem h1 hp)

theorem splitChars_of_not_mem {sep : Char} {x : List Char} (h : sep ∉ x) :
    splitChars sep x = [x] := by
  induction x with
  | nil => rfl
  | cons c cs ih =>
    simp only [List.mem_cons, not_or] at h
    simp only [splitChars, ih h.2]
    rw [if_neg (fun hc => h.1 hc.symm)]
    rfl

theorem splitChars_append_sep {sep : Char} {x rest : List Char} (h : sep ∉ x) :
    splitChars sep (x ++ sep :: rest) = x :: splitChars sep rest := by
  induction x with
  | nil => simp [splitChars]
  | cons c cs ih =>
    simp only [List.mem_cons, not_or] at h
    simp only [List.cons_append, splitChars, List.append_eq, ih h.2]
    rw [if_neg (fun hc => h.1 hc.symm)]
    rfl

theorem splitChars_joinSepChars {l : List (List Char)} (h0 : l ≠ [])
    (h : ∀ p ∈ l, ('/' : Char) ∉ p) :
    splitChars '/' (joinSepChars l) = l := by
  induction l with
  | nil => exact absurd rfl h0
  | cons x xs ih =>
    cases xs with
    | nil =>
      simp only [joinSepChars]
      exact splitChars_of_not_mem (h x (List.mem_cons_self x []))
    | cons y ys =>
      have hx : ('/' : Char) ∉ x := h x (List.mem_cons_self x _)
      have hxs : ∀ p ∈ y :: ys, ('/' : Char) ∉ p :=
        fun p hp => h p (List.mem_cons_of_mem x hp)
      simp only [joinSepChars]
      rw [splitChars_append_sep hx, ih (by simp) hxs]

theorem startsWithChars_subset {pre s : List Char}
    (h : startsWithChars pre s = true) : ∀ c ∈ pre, c ∈ s := by
  induction pre generalizing s with
  | nil => simp
  | cons a as ih =>
    cases s with
    | nil => simp [startsWithChars] at h
    | cons b bs =>
      simp only [startsWithChars, Bool.and_eq_true, decide_eq_true_eq] at h
      intro c hc
      rcases List.mem_cons.mp hc with rfl | hc
      · rw [h.1]
        exact List.mem_cons_self _ _
      · exact List.mem_cons_of_mem _ (ih h.2 c hc)

theorem any_of_sep_free {ps : List (List Char)}
    (h : ∀ p ∈ ps, startsWithChars ("gitr/".data) p = false) :
    (ps.any fun p =>
      p = "gitr".data || startsWithChars ("gitr_".data) p ||
        startsWithChars ("gitr/".data) p) =
    (ps.any fun p => p = "gitr".data || startsWithChars ("gitr_".data) p) := by
  induction ps with
  | nil => rfl
  | cons q qs ih =>
    simp only [List.any_cons, h q (List.mem_cons_self q qs),
      ih fun p hp => h p (List.mem_cons_of_mem q hp), Bool.or_false]

/-- The separator-prefix branch of `is_gitr_bench` is never satisfied by a
component produced by splitting on the separator. -/
theorem is_gitr_bench_eq_simple (bench_key : String) :
    is_gitr_bench bench_key = is_gitr_bench_simple bench_key := by
  rw [is_gitr_bench, is_gitr_bench_simple]
  apply any_of_sep_free
  intro p hp
  have hsep : ('/' : Char) ∉ p := not_mem_of_mem_splitChars p hp
  cases hs : startsWithChars ("gitr/".data) p with
  | false => rfl
  | true => exact absurd (startsWithChars_subset hs '/' (by decide)) hsep

/-! ### Loader lemmas -/

theorem joinSep_ne_empty {l : List String} (h0 : l ≠ []) (h : ∀ s ∈ l, s ≠ "") :
    joinSep l ≠ "" := by
  intro hc
  have hdata : joinSepChars (l.map String.data) = [] := congrArg String.data hc
  cases l with
  | nil => exact h0 rfl
  | cons x xs =>
    cases xs with
    | nil =>
      simp only [List.map_cons, List.map_nil, joinSepChars] at hdata
      exact h x (List.mem_cons_self x []) (String.ext hdata)
    | cons y ys => simp [List.map_cons, joinSepChars] at hdata

theorem pyIndex_append {name : String} {pre suf : List String}
    (h : name ∉ pre) : pyIndex name (pre ++ name :: suf) = pre.length := by
  induction pre with
  | nil => simp [pyIndex]
  | cons p ps ih =>
    simp only [List.mem_cons, not_or] at h
    simp only [List.cons_append, pyIndex, List.length_cons, List.append_eq]
    rw [if_neg (fun hc => h.1 hc.symm), ih h.2]

theorem findStep_eq (name : String) (acc : List (String × ℚ))
    (e : List String × ℚ) :
    findStep name acc e =
      if name ∈ e.1 then
        if joinSep (e.1.take (pyIndex name e.1)) = "" then acc
        else dictInsert acc (joinSep (e.1.take (pyIndex name e.1))) e.2
      else acc := rfl

theorem find_baselines_append (walk : List (List String × ℚ))
    (e : List String × ℚ) (name : String) :
    find_baselines (walk ++ [e]) name =
      findStep name (find_baselines walk name) e := by
  simp [find_baselines, List.foldl_append]

theorem find_baselines_key_shape (name : String) :
    ∀ (walk : List (List String × ℚ)) (acc : List (String × ℚ)),
    (∀ e ∈ walk, ∀ s ∈ e.1, ('/' : Char) ∉ s.data) →
    (∀ key ∈ dictKeys acc,
      ∃ l, l ≠ [] ∧ (∀ s ∈ l, ('/' : Char) ∉ s.data) ∧ key = joinSep l) →
    ∀ key ∈ dictKeys (walk.foldl (findStep name) acc),
      ∃ l, l ≠ [] ∧ (∀ s ∈ l, ('/' : Char) ∉ s.data) ∧ key = joinSep l := by
  intro walk
  induction walk with
  | nil => exact fun acc _ hacc => hacc
  | cons e rest ih =>
    intro acc hwalk hacc
    simp only [List.foldl_cons]
    refine ih (findStep name acc e)
      (fun e' he' => hwalk e' (List.mem_cons_of_mem e he')) ?_
    intro key hkey
    rw [findStep_eq] at hkey
    split at hkey
    · rename_i hmem
      split at hkey
      · exact hacc key hkey
      · rename_i hne
        rcases mem_dictKeys_dictInsert.mp hkey with hk | rfl
        · exact hacc key hk
        · refine ⟨e.1.take (pyIndex name e.1), ?_, ?_, rfl⟩
          · intro hnil
            exact hne (by rw [hnil]; rfl)
          · intro s hs
            exact hwalk e (List.mem_cons_self e rest) s (List.mem_of_mem_take hs)
    · exact hacc key hkey

/-! ### Comparator lemmas -/

theorem compareKey_filter_false {base_results pr_results : List (String × ℚ)}
    {θ : ℚ} {k : String} (h : is_gitr_bench k = false) :
    compareKey base_results pr_results θ k = .ok none := by
  rw [compareKey, h]
  rfl

theorem compareKey_of_base_none {base_results pr_results : List (String × ℚ)}
    {θ : ℚ} {k : String} (hg : is_gitr_bench k = true)
    (hb : dictGet base_results k = none) :
    compareKey base_results pr_results θ k =
      .ok (some ⟨k, none, dictGet pr_results k, none, .NEW⟩) := by
  rw [compareKey, hg, hb]
  rfl

theorem compareKey_of_pr_none {base_results pr_results : List (String × ℚ)}
    {θ : ℚ} {k : String} {bv : ℚ} (hg : is_gitr_bench k = true)
    (hb : dictGet base_results k = some bv)
    (hp : dictGet pr_results k = none) :
    compareKey base_results pr_results θ k =
      .ok (some ⟨k, some bv, none, none, .REMOVED⟩) := by
  rw [compareKey, hg, hb, hp]
  rfl

theorem compareKey_zeroDiv {base_results pr_results : List (String × ℚ)}
    {θ : ℚ} {k : String} {pv : ℚ} (hg : is_gitr_bench k = true)
    (hb : dictGet base_results k = some 0)
    (hp : dictGet pr_results k = some pv) :
    compareKey base_results pr_results θ k = .error (.zeroDiv k) := by
  rw [compareKey, hg, hb, hp]
  simp

theorem compareKey_of_both {base_results pr_results : List (String × ℚ)}
    {θ : ℚ} {k : String} {bv pv : ℚ} (hg : is_gitr_bench k = true)
    (hb : dictGet base_results k = some bv)
    (hp : dictGet pr_results k = some pv) (hb0 : bv ≠ 0) :
    compareKey base_results pr_results θ k =
      .ok (some ⟨k, some bv, some pv, some (round2 ((pv - bv) / bv * 100)),
        classify θ ((pv - bv) / bv * 100)⟩) := by
  rw [compareKey, hg, hb, hp]
  simp [hb0]

theorem compareKey_ok_none {base_results pr_results : List (String × ℚ)}
    {θ : ℚ} {k : String}
    (h : compareKey base_results pr_results θ k = .ok none) :
    is_gitr_bench k = false := by
  cases hg : is_gitr_bench k with
  | false => rfl
  | true =>
    exfalso
    cases hb : dictGet base_results k with
    | none =>
      rw [compareKey_of_base_none hg hb] at h
      simp at h
    | some bv =>
      cases hp : dictGet pr_results k with
      | none =>
        rw [compareKey_of_pr_none hg hb hp] at h
        simp at h
      | some pv =>
        by_cases hb0 : bv = 0
        · subst hb0
          rw [compareKey_zeroDiv hg hb hp] at h
          simp at h
        · rw [compareKey_of_both hg hb hp hb0] at h
          simp at h

theorem compareKey_ok_some_spec {base_results pr_results : List (String × ℚ)}
    {θ : ℚ} {k : String} {r : CompResult}
    (h : compareKey base_results pr_results θ k = .ok (some r)) :
    r.benchmark = k ∧ is_gitr_bench k = true ∧
    r.base_ns = dictGet base_results k ∧ r.pr_ns = dictGet pr_results k ∧
    (r.pct_change.isSome = true ↔
      (r.base_ns.isSome = true ∧ r.pr_ns.isSome = true)) ∧
    (r.base_ns = none → r.status = .NEW) ∧
    (r.base_ns.isSome = true → r.pr_ns = none → r.status = .REMOVED) ∧
    (∀ bv pv, r.base_ns = some bv → r.pr_ns = some pv →
      bv ≠ 0 ∧
      r.status = classify θ ((pv - bv) / bv * 100) ∧
      r.pct_change = some (round2 ((pv - bv) / bv * 100))) := by
  cases hg : is_gitr_bench k with
  | false =>
    rw [compareKey_filter_false hg] at h
    exact absurd h (by simp)
  | true =>
    cases hb : dictGet base_results k with
    | none =>
      rw [compareKey_of_base_none hg hb] at h
      simp only [Except.ok.injEq, Option.some.injEq] at h
      subst h
      refine ⟨rfl, rfl, rfl, rfl, by simp, fun _ => rfl, by simp, ?_⟩
      intro bv pv hbv
      exact absurd hbv (by simp)
    | some bv0 =>
      cases hp : dictGet pr_results k with
      | none =>
        rw [compareKey_of_pr_none hg hb hp] at h
        simp only [Except.ok.injEq, Option.some.injEq] at h
        subst h
        refine ⟨rfl, rfl, rfl, rfl, by simp, by simp, fun _ _ => rfl, ?_⟩
        intro bv pv _ hpv
        exact absurd hpv (by simp)
      | some pv0 =>
        by_cases hb0 : bv0 = 0
        · subst hb0
          rw [compareKey_zeroDiv hg hb hp] at h
          exact absurd h (by simp)
        · rw [compareKey_of_both hg hb hp hb0] at h
          simp only [Except.ok.injEq, Option.some.injEq] at h
          subst h
          refine ⟨rfl, rfl, rfl, rfl, by simp, by simp, by simp, ?_⟩
          intro bv pv hbv hpv
          simp only [Option.some.injEq] at hbv hpv
          subst hbv
          subst hpv
          exact ⟨hb0, rfl, rfl⟩

theorem compareAll_ok_forall {base_results pr_results : List (String × ℚ)}
    {θ : ℚ} : ∀ {ks : List String} {rs : List CompResult},
    compareAll base_results pr_results θ ks = .ok rs →
    ∀ r ∈ rs, ∃ k ∈ ks, compareKey base_results pr_results θ k = .ok (some r) := by
  intro ks
  induction ks with
  | nil =>
    intro rs h r hr
    simp only [compareAll, Except.ok.injEq] at h
    subst h
    simp at hr
  | cons k0 ks ih =>
    intro rs h r hr
    rw [compareAll] at h
    split at h
    · exact absurd h (by simp)
    · rename_i hk0
      obtain ⟨k, hk, hck⟩ := ih h r hr
      exact ⟨k, List.mem_cons_of_mem k0 hk, hck⟩
    · rename_i r0 hk0
      split at h
      · exact absurd h (by simp)
      · rename_i rest hrest
        simp only [Except.ok.injEq] at h
        subst h
        rcases List.mem_cons.mp hr with rfl | hr
        · exact ⟨k0, List.mem_cons_self k0 ks, hk0⟩
        · obtain ⟨k, hk, hck⟩ := ih hrest r hr
          exact ⟨k, List.mem_cons_of_mem k0 hk, hck⟩

theorem compareAll_sublist {base_results pr_results : List (String × ℚ)}
    {θ : ℚ} : ∀ {ks : List String} {rs : List CompResult},
    compareAll base_results pr_results θ ks = .ok rs →
    List.Sublist (rs.map CompResult.benchmark) ks := by
  intro ks
  induction ks with
  | nil =>
    intro rs h
    simp only [compareAll, Except.ok.injEq] at h
    subst h
    simp
  | cons k0 ks ih =>
    intro rs h
    rw [compareAll] at h
    split at h
    · exact absurd h (by simp)
    · exact (ih h).cons k0
    · rename_i r0 hk0
      split at h
      · exact absurd h (by simp)
      · rename_i rest hrest
        simp only [Except.ok.injEq] at h
        subst h
        rw [List.map_cons, (compareKey_ok_some_spec hk0).1]
        exact (ih hrest).cons₂ k0

theorem compareAll_countP {base_results pr_results : List (String × ℚ)}
    {θ : ℚ} : ∀ {ks : List String} {rs : List CompResult},
    compareAll base_results pr_results θ ks = .ok rs →
    ∀ key, (rs.countP fun r => r.benchmark == key) =
      (ks.countP fun k => k == key && is_gitr_bench k) := by
  intro ks
  induction ks with
  | nil =>
    intro rs h key
    simp only [compareAll, Except.ok.injEq] at h
    subst h
    rfl
  | cons k0 ks ih =>
    intro rs h key
    rw [compareAll] at h
    split at h
    · exact absurd h (by simp)
    · rename_i hk0
      rw [List.countP_cons, compareKey_ok_none hk0]
      simp only [Bool.and_false, if_false, Nat.add_zero]
      exact ih h key
    · rename_i r0 hk0
      split at h
      · exact absurd h (by simp)
      · rename_i rest hrest
        simp only [Except.ok.injEq] at h
        subst h
        rw [List.countP_cons, List.countP_cons, (compareKey_ok_some_spec hk0).1,
          (compareKey_ok_some_spec hk0).2.1]
        simp only [Bool.and_true]
        rw [ih hrest key]

theorem compareAll_error_of_mem {base_results pr_results : List (String × ℚ)}
    {θ : ℚ} {k : String} {e : RunError}
    (hck : compareKey base_results pr_results θ k = .error e) :
    ∀ {ks : List String}, k ∈ ks →
    ∀ rs, compareAll base_results pr_results θ ks ≠ .ok rs := by
  intro ks
  induction ks with
  | nil => simp
  | cons k0 ks ih =>
    intro hk rs h
    rw [compareAll] at h
    split at h
    · exact absurd h (by simp)
    · rename_i hk0
      rcases List.mem_cons.mp hk with rfl | hk
      · rw [hck] at hk0
        exact absurd hk0 (by simp)
      · exact ih hk rs h
    · rename_i r0 hk0
      rcases List.mem_cons.mp hk with rfl | hk
      · rw [hck] at hk0
        exact absurd hk0 (by simp)
      · split at h
        · exact absurd h (by simp)
        · rename_i rest hrest
          exact ih hk rest hrest

theorem compareAll_all_filtered {base_results pr_results : List (String × ℚ)}
    {θ : ℚ} : ∀ {ks : List String},
    (∀ k ∈ ks, is_gitr_bench k = false) →
    compareAll base_results pr_results θ ks = .ok [] := by
  intro ks
  induction ks with
  | nil => intro _; rfl
  | cons k0 ks ih =>
    intro h
    rw [compareAll, compareKey_filter_false (h k0 (List.mem_cons_self k0 ks))]
    exact ih fun k hk => h k (List.mem_cons_of_mem k0 hk)

theorem compareKey_error_shape {base_results pr_results : List (String × ℚ)}
    {θ : ℚ} {k : String} {e : RunError}
    (h : compareKey base_results pr_results θ k = .error e) :
    e = .zeroDiv k := by
  cases hg : is_gitr_bench k with
  | false =>
    rw [compareKey_filter_false hg] at h
    exact absurd h (by simp)
  | true =>
    cases hb : dictGet base_results k with
    | none =>
      rw [compareKey_of_base_none hg hb] at h
      exact absurd h (by simp)
    | some bv =>
      cases hp : dictGet pr_results k with
      | none =>
        rw [compareKey_of_pr_none hg hb hp] at h
        exact absurd h (by simp)
      | some pv =>
        by_cases hb0 : bv = 0
        · subst hb0
          rw [compareKey_zeroDiv hg hb hp] at h
          simp only [Except.error.injEq] at h
          exact h.symm
        · rw [compareKey_of_both hg hb hp hb0] at h
          exact absurd h (by simp)

theorem compareAll_error_shape {base_results pr_results : List (String × ℚ)}
    {θ : ℚ} : ∀ {ks : List String} {e : RunError},
    compareAll base_results pr_results θ ks = .error e →
    ∃ k, e = .zeroDiv k := by
  intro ks
  induction ks with
  | nil =>
    intro e h
    exact absurd h (by simp [compareAll])
  | cons k0 ks ih =>
    intro e h
    rw [compareAll] at h
    split at h
    · rename_i hk0
      simp only [Except.error.injEq] at h
      subst h
      exact ⟨k0, compareKey_error_shape hk0⟩
    · exact ih h
    · split at h
      · rename_i hrest
        simp only [Except.error.injEq] at h
        subst h
        exact ih hrest
      · exact absurd h (by simp)

theorem classify_cases (θ pct : ℚ) :
    classify θ pct = .REGRESSION ∨ classify θ pct = .IMPROVEMENT ∨
      classify θ pct = .OK := by
  rw [classify]
  split
  · exact Or.inl rfl
  · split
    · exact Or.inr (Or.inl rfl)
    · exact Or.inr (Or.inr rfl)

theorem countP_keyed_eq_zero {key : String} {φ : String → Bool} :
    ∀ {ks : List String}, key ∉ ks →
    (ks.countP fun k => k == key && φ k) = 0 := by
  intro ks
  induction ks with
  | nil => intro _; rfl
  | cons k0 ks ih =>
    intro h
    simp only [List.mem_cons, not_or] at h
    rw [List.countP_cons]
    have : (k0 == key && φ k0) = false := by
      have : (k0 == key) = false := beq_eq_false_iff_ne.mpr fun hc => h.1 hc.symm
      simp [this]
    simp only [this, if_false, Nat.add_zero]
    exact ih h.2

theorem countP_keyed_eq_one {key : String} {φ : String → Bool}
    (hφ : φ key = true) : ∀ {ks : List String}, ks.Nodup → key ∈ ks →
    (ks.countP fun k => k == key && φ k) = 1 := by
  intro ks
  induction ks with
  | nil => simp
  | cons k0 ks ih =>
    intro hnd hmem
    rw [List.countP_cons]
    rcases List.mem_cons.mp hmem with rfl | hmem
    · have hout : key ∉ ks := (List.nodup_cons.mp hnd).1
      rw [countP_keyed_eq_zero hout]
      simp [hφ]
    · have hne : (k0 == key) = false := by
        refine beq_eq_false_iff_ne.mpr fun hc => ?_
        subst hc
        exact (List.nodup_cons.mp hnd).1 hmem
      simp only [hne, Bool.false_and, if_false, Nat.add_zero]
      exact ih (List.nodup_cons.mp hnd).2 hmem

/-! ### Claim theorems -/

/-- C4: the Subsystem Filter returns true iff at least one `"/"`-separated
segment of the identity equals `"gitr"` exactly, or starts with `"gitr_"`,
or starts with `"gitr/"`; identities whose segments contain the marker only
as an unrelated substring (`gitrX`, `ungitr`), or in different case, do not
match. -/
theorem claim_C4_filter :
    (∀ key, is_gitr_bench key = true ↔
      ∃ p ∈ splitChars '/' key.data,
        p = "gitr".data ∨ startsWithChars ("gitr_".data) p = true ∨
          startsWithChars ("gitr/".data) p = true) ∧
    is_gitr_bench "status/gitrX/small" = false ∧
    is_gitr_bench "ungitr/small" = false ∧
    is_gitr_bench "Gitr/small" = false := by
  refine ⟨?_, by decide, by decide, by decide⟩
  intro key
  rw [is_gitr_bench, List.any_eq_true]
  simp only [Bool.or_eq_true, decide_eq_true_eq, or_assoc]

/-- C4 witness: a compound segment with the `gitr_` prefix matches. -/
theorem claim_C4_filter_witness :
    is_gitr_bench "cat-file/gitr_-p/small" = true :=
  (claim_C4_filter.1 "cat-file/gitr_-p/small").mpr
    ⟨("gitr_-p".data), by decide, Or.inr (Or.inl (by decide))⟩

/-- C10: keys produced by the Baseline Loader split on `"/"` into
separator-free segments (recovering exactly the joined segment list), so
the `startswith "gitr/"` branch of the filter can never fire and
`is_gitr_bench` agrees with the simpler equality/underscore predicate on
all such keys. -/
theorem claim_C10_refinement (walk : List (List String × ℚ))
    (name key : String)
    (hseg : ∀ e ∈ walk, ∀ s ∈ e.1, ('/' : Char) ∉ s.data)
    (hkey : key ∈ dictKeys (find_baselines walk name)) :
    (∀ p ∈ splitChars '/' key.data, ('/' : Char) ∉ p ∧
      startsWithChars ("gitr/".data) p = false) ∧
    (∃ segs, segs ≠ [] ∧ key = joinSep segs ∧
      splitChars '/' key.data = segs.map String.data) ∧
    is_gitr_bench key = is_gitr_bench_simple key := by
  refine ⟨?_, ?_, is_gitr_bench_eq_simple key⟩
  · intro p hp
    have hsep : ('/' : Char) ∉ p := not_mem_of_mem_splitChars p hp
    refine ⟨hsep, ?_⟩
    cases hs : startsWithChars ("gitr/".data) p with
    | false => rfl
    | true => exact absurd (startsWithChars_subset hs '/' (by decide)) hsep
  · obtain ⟨segs, hne, hfree, hkeyeq⟩ :=
      find_baselines_key_shape name walk [] hseg (by simp [dictKeys]) key hkey
    refine ⟨segs, hne, hkeyeq, ?_⟩
    have hmapne : segs.map String.data ≠ [] := by
      simp only [ne_eq, List.map_eq_nil_iff]
      exact hne
    have hmapfree : ∀ p ∈ segs.map String.data, ('/' : Char) ∉ p := by
      intro p hp
      obtain ⟨s, hs, rfl⟩ := List.mem_map.mp hp
      exact hfree s hs
    rw [hkeyeq]
    exact splitChars_joinSepChars hmapne hmapfree

/-- C10 witness: on a concrete loader-produced key the two predicates
agree. -/
theorem claim_C10_refinement_witness :
    is_gitr_bench "status/gitr/small" =
      is_gitr_bench_simple "status/gitr/small" :=
  (claim_C10_refinement [(["status", "gitr", "small", "main"], 5)] "main"
    "status/gitr/small" (by decide) (by decide)).2.2

/-- C1 counterexample: with threshold `-3` and timings 100 → 97 the
percentage change equals the threshold exactly, yet the code classifies
IMPROVEMENT, not OK as the claim requires for every threshold value. -/
theorem claim_C1_counterexample :
    ((97 - 100 : ℚ) / 100 * 100 = -3) ∧
    compareKey [("gitr/a", 100)] [("gitr/a", 97)] (-3) "gitr/a" =
      .ok (some ⟨"gitr/a", some 100, some 97, some (-3), .IMPROVEMENT⟩) ∧
    Status.IMPROVEMENT ≠ Status.OK := by
  refine ⟨by norm_num, ?_, by decide⟩
  have h1 : is_gitr_bench "gitr/a" = true := by decide
  have h2 : dictGet [("gitr/a", 100)] "gitr/a" = some 100 := rfl
  have h3 : dictGet [("gitr/a", 97)] "gitr/a" = some 97 := rfl
  rw [compareKey_of_both h1 h2 h3 (by norm_num)]
  norm_num [classify, round2, rhe]

/-- C1 (amended): for an identity present in both snapshots with nonzero
base, the result stores `pct_change = round2 pct` and the status follows the
elif chain: REGRESSION iff `pct > threshold`, IMPROVEMENT iff
`pct ≤ threshold` and `pct < -threshold`, OK otherwise; the boundary rule
"`pct = threshold` or `pct = -threshold` gives OK" holds whenever the
threshold is nonnegative (it fails for negative thresholds). -/
theorem claim_C1_amended (base_results pr_results : List (String × ℚ))
    (θ bv pv : ℚ) (key : String) (hg : is_gitr_bench key = true)
    (hb : dictGet base_results key = some bv)
    (hp : dictGet pr_results key = some pv) (hb0 : bv ≠ 0) :
    ∃ r, compareKey base_results pr_results θ key = .ok (some r) ∧
      r.pct_change = some (round2 ((pv - bv) / bv * 100)) ∧
      (r.status = .REGRESSION ↔ (pv - bv) / bv * 100 > θ) ∧
      (r.status = .IMPROVEMENT ↔
        (¬ (pv - bv) / bv * 100 > θ ∧ (pv - bv) / bv * 100 < -θ)) ∧
      (r.status = .OK ↔
        (¬ (pv - bv) / bv * 100 > θ ∧ ¬ (pv - bv) / bv * 100 < -θ)) ∧
      (0 ≤ θ → (((pv - bv) / bv * 100 = θ → r.status = .OK) ∧
                ((pv - bv) / bv * 100 = -θ → r.status = .OK))) := by
  refine ⟨_, compareKey_of_both hg hb hp hb0, rfl, ?_, ?_, ?_, ?_⟩
  · show classify θ ((pv - bv) / bv * 100) = _ ↔ _
    rw [classify]
    split
    · rename_i h1
      simp [h1]
    · rename_i h1
      split <;> simp [h1]
  · show classify θ ((pv - bv) / bv * 100) = _ ↔ _
    rw [classify]
    split
    · rename_i h1
      simp [h1]
    · rename_i h1
      split
      · rename_i h2
        simp [h1, h2]
      · rename_i h2
        simp [h1, h2]
  · show classify θ ((pv - bv) / bv * 100) = _ ↔ _
    rw [classify]
    split
    · rename_i h1
      simp [h1]
    · rename_i h1
      split
      · rename_i h2
        simp [h1, h2]
      · rename_i h2
        simp [h1, h2]
  · intro hθ
    constructor
    · intro hpct
      show classify θ ((pv - bv) / bv * 100) = _
      rw [classify, hpct]
      rw [if_neg (lt_irrefl θ), if_neg (by intro h; linarith)]
    · intro hpct
      show classify θ ((pv - bv) / bv * 100) = _
      rw [classify, hpct]
      rw [if_neg (by intro h; linarith), if_neg (lt_irrefl (-θ))]

/-- C1 witness: timings 100 → 106 at threshold 5 give pct 6 and
REGRESSION. -/
theorem claim_C1_amended_witness :
    ∃ r, compareKey [("gitr/a", 100)] [("gitr/a", 106)] 5 "gitr/a" =
        .ok (some r) ∧
      r.pct_change = some (round2 ((106 - 100) / 100 * 100)) ∧
      (r.status = .REGRESSION ↔ (106 - 100 : ℚ) / 100 * 100 > 5) ∧
      (r.status = .IMPROVEMENT ↔
        (¬ (106 - 100 : ℚ) / 100 * 100 > 5 ∧ (106 - 100 : ℚ) / 100 * 100 < -5)) ∧
      (r.status = .OK ↔
        (¬ (106 - 100 : ℚ) / 100 * 100 > 5 ∧ ¬ (106 - 100 : ℚ) / 100 * 100 < -5)) ∧
      ((0 : ℚ) ≤ 5 → (((106 - 100 : ℚ) / 100 * 100 = 5 → r.status = .OK) ∧
                ((106 - 100 : ℚ) / 100 * 100 = -5 → r.status = .OK))) :=
  claim_C1_amended [("gitr/a", 100)] [("gitr/a", 106)] 5 100 106 "gitr/a"
    (by decide) rfl rfl (by norm_num)

/-- C7 counterexample: the identity `cgit/x` is present in both snapshots
with base timing exactly zero, yet the run does not fail — the subsystem
filter skips the identity before the division is reached. -/
theorem claim_C7_counterexample :
    dictGet [("cgit/x", 0)] "cgit/x" = some 0 ∧
    dictGet [("cgit/x", 5)] "cgit/x" = some 5 ∧
    is_gitr_bench "cgit/x" = false ∧
    buildResults [("cgit/x", 0)] [("cgit/x", 5)] 5 = .ok [] := by
  exact ⟨rfl, rfl, by decide, rfl⟩

/-- C7 (amended): for an identity that passes the Subsystem Filter and is
present in both snapshots with base timing exactly zero, the comparison
stage aborts the whole run with an error and produces no result list. -/
theorem claim_C7_amended (base_results pr_results : List (String × ℚ))
    (θ pv : ℚ) (key : String) (hg : is_gitr_bench key = true)
    (hb : dictGet base_results key = some 0)
    (hp : dictGet pr_results key = some pv) :
    ∃ e, buildResults base_results pr_results θ = .error e := by
  have hmem : key ∈ allKeys base_results pr_results := by
    refine mem_allKeys.mpr (Or.inl (dictGet_isSome_iff.mp ?_))
    rw [hb]
    rfl
  cases hbr : buildResults base_results pr_results θ with
  | error e => exact ⟨e, rfl⟩
  | ok rs =>
    exact absurd hbr
      (compareAll_error_of_mem (compareKey_zeroDiv hg hb hp) hmem rs)

/-- C7 witness: a zero base timing on a gitr identity aborts the run. -/
theorem claim_C7_amended_witness :
    ∃ e, buildResults [("gitr/z", 0)] [("gitr/z", 5)] 5 = .error e :=
  claim_C7_amended [("gitr/z", 0)] [("gitr/z", 5)] 5 5 "gitr/z"
    (by decide) rfl rfl


/-- C3: for one walk entry (a directory directly containing
`estimates.json`, with nonempty path segments), the loader skips it when the
baseline name does not occur among the segments; when it does occur, with
`pre` the segments strictly before the first occurrence, the entry is
skipped if `pre` is empty and otherwise records the mean point estimate
under the `"/"`-joined identity `pre`. -/
theorem claim_C3_loader (walk : List (List String × ℚ)) (parts : List String)
    (est : ℚ) (name : String) (hne : ∀ s ∈ parts, s ≠ "") :
    (name ∉ parts →
      find_baselines (walk ++ [(parts, est)]) name = find_baselines walk name) ∧
    (∀ pre suf, parts = pre ++ name :: suf → name ∉ pre →
      (pre = [] →
        find_baselines (walk ++ [(parts, est)]) name =
          find_baselines walk name) ∧
      (pre ≠ [] →
        find_baselines (walk ++ [(parts, est)]) name =
          dictInsert (find_baselines walk name) (joinSep pre) est)) := by
  constructor
  · intro hmem
    rw [find_baselines_append, findStep_eq]
    exact if_neg hmem
  · intro pre suf hparts hpre
    have hidx : pyIndex name parts = pre.length := by
      rw [hparts]
      exact pyIndex_append hpre
    have htake : parts.take (pyIndex name parts) = pre := by
      rw [hidx, hparts]
      exact List.take_left pre (name :: suf)
    have hmem : name ∈ parts := by
      rw [hparts]
      simp
    constructor
    · intro h0
      rw [find_baselines_append, findStep_eq, if_pos hmem, htake, h0]
      exact if_pos (by decide)
    · intro h0
      rw [find_baselines_append, findStep_eq, if_pos hmem, htake]
      rw [if_neg (joinSep_ne_empty h0
        (fun s hs => hne s (by rw [hparts]; exact List.mem_append_left _ hs)))]

/-- C3 witness: the entry `status/gitr/small/main` under baseline `main`
records the value under identity `status/gitr/small`. -/
theorem claim_C3_loader_witness :
    find_baselines [(["status", "gitr", "small", "main"], 5)] "main" =
      dictInsert (find_baselines [] "main")
        (joinSep ["status", "gitr", "small"]) 5 :=
  ((claim_C3_loader [] ["status", "gitr", "small", "main"] 5 "main"
      (by decide)).2 ["status", "gitr", "small"] [] rfl (by decide)).2
    (by decide)

/-- C5 counterexample: the results are ordered by code-point order of the
joined key string, which puts `a-b/gitr` before `a/gitr`, although the
lexicographic order over the segment sequences puts `["a", "gitr"]` before
`["a-b", "gitr"]` — so the output is not sorted by segment-wise
lexicographic order. -/
theorem claim_C5_counterexample :
    (buildResults [("a/gitr", 1), ("a-b/gitr", 1)]
        [("a/gitr", 1), ("a-b/gitr", 1)] 5).map
      (fun rs => rs.map CompResult.benchmark) = .ok ["a-b/gitr", "a/gitr"] ∧
    segLexLt (splitChars '/' ("a/gitr").data)
      (splitChars '/' ("a-b/gitr").data) = true := by
  refine ⟨?_, by decide⟩
  have hall : allKeys [("a/gitr", 1), ("a-b/gitr", 1)]
      [("a/gitr", 1), ("a-b/gitr", 1)] = ["a-b/gitr", "a/gitr"] := by decide
  have h1 : compareKey [("a/gitr", 1), ("a-b/gitr", 1)]
      [("a/gitr", 1), ("a-b/gitr", 1)] 5 "a-b/gitr" =
      .ok (some ⟨"a-b/gitr", some 1, some 1,
        some (round2 ((1 - 1) / 1 * 100)), classify 5 ((1 - 1) / 1 * 100)⟩) :=
    compareKey_of_both (by decide) (by decide) (by decide) one_ne_zero
  have h2 : compareKey [("a/gitr", 1), ("a-b/gitr", 1)]
      [("a/gitr", 1), ("a-b/gitr", 1)] 5 "a/gitr" =
      .ok (some ⟨"a/gitr", some 1, some 1,
        some (round2 ((1 - 1) / 1 * 100)), classify 5 ((1 - 1) / 1 * 100)⟩) :=
    compareKey_of_both (by decide) (by decide) (by decide) one_ne_zero
  simp only [buildResults, hall, compareAll, h1, h2, Except.map, List.map_cons,
    List.map_nil]

/-- C5 (amended): the results list (hence the JSON `results` list and every
rendered table, which are filters of it) is sorted by the code-point
lexicographic order of the `"/"`-joined Benchmark Identity string, a
deterministic total order. -/
theorem claim_C5_amended (base_results pr_results : List (String × ℚ))
    (θ : ℚ) (rs : List CompResult)
    (h : buildResults base_results pr_results θ = .ok rs) :
    rs.Pairwise fun r1 r2 => strLeB r1.benchmark r2.benchmark = true := by
  have hsub := compareAll_sublist h
  have hsorted := allKeys_pairwise base_results pr_results
  have hmap := List.Pairwise.sublist hsub hsorted
  rwa [List.pairwise_map] at hmap

/-- C5 witness: the counterexample run is sorted in string order. -/
theorem claim_C5_amended_witness :
    List.Pairwise (fun r1 r2 => strLeB r1.benchmark r2.benchmark = true)
      [(⟨"a/gitr", some 1, none, none, .REMOVED⟩ : CompResult),
       ⟨"b/gitr", none, some 2, none, .NEW⟩] :=
  claim_C5_amended [("a/gitr", 1)] [("b/gitr", 2)] 5 _ (by
    have hall : allKeys [("a/gitr", 1)] [("b/gitr", 2)] =
        ["a/gitr", "b/gitr"] := by decide
    have h1 : compareKey [("a/gitr", 1)] [("b/gitr", 2)] 5 "a/gitr" =
        .ok (some ⟨"a/gitr", some 1, none, none, .REMOVED⟩) :=
      compareKey_of_pr_none (by decide) (by decide) (by decide)
    have h2 : compareKey [("a/gitr", 1)] [("b/gitr", 2)] 5 "b/gitr" =
        .ok (some ⟨"b/gitr", none, some 2, none, .NEW⟩) :=
      compareKey_of_base_none (by decide) (by decide)
    simp only [buildResults, hall, compareAll, h1, h2])


/-- C6: if either requested baseline loads an empty snapshot, the run aborts
with an error that names that baseline and the search root, before any
artifact is produced; when both snapshots are non-empty, no missing-baseline
error is signalled and the run proceeds to the comparison stage. -/
theorem claim_C6_missing_baseline (walk : List (List String × ℚ))
    (criterion_dir base pr : String) (θ : ℚ) :
    (find_baselines walk base = [] →
      run walk criterion_dir base pr θ =
        .error (.missingBase base criterion_dir)) ∧
    (find_baselines walk base ≠ [] → find_baselines walk pr = [] →
      run walk criterion_dir base pr θ =
        .error (.missingPr pr criterion_dir)) ∧
    (find_baselines walk base ≠ [] → find_baselines walk pr ≠ [] →
      (run walk criterion_dir base pr θ =
        match buildResults (find_baselines walk base)
            (find_baselines walk pr) θ with
        | .error e => .error e
        | .ok results =>
          .ok ⟨mkJsonOutput θ results, mdLines θ results,
            consoleLines θ results⟩) ∧
      ∀ n d, run walk criterion_dir base pr θ ≠ .error (.missingBase n d) ∧
             run walk criterion_dir base pr θ ≠ .error (.missingPr n d)) := by
  refine ⟨?_, ?_, ?_⟩
  · intro h
    simp only [run]
    rw [if_pos h]
  · intro h1 h2
    simp only [run]
    rw [if_neg h1, if_pos h2]
  · intro h1 h2
    have hrun : run walk criterion_dir base pr θ =
        match buildResults (find_baselines walk base)
            (find_baselines walk pr) θ with
        | .error e => .error e
        | .ok results =>
          .ok ⟨mkJsonOutput θ results, mdLines θ results,
            consoleLines θ results⟩ := by
      simp only [run]
      rw [if_neg h1, if_neg h2]
    refine ⟨hrun, ?_⟩
    intro n d
    rw [hrun]
    cases hbr : buildResults (find_baselines walk base)
        (find_baselines walk pr) θ with
    | error e =>
      obtain ⟨k, rfl⟩ := compareAll_error_shape hbr
      exact ⟨by simp, by simp⟩
    | ok results => exact ⟨by simp, by simp⟩

/-- C6 witness: an empty walk yields an empty base snapshot and the
missing-base error naming the baseline and the root. -/
theorem claim_C6_missing_baseline_witness :
    run [] "target/criterion" "main" "pr" 5 =
      .error (.missingBase "main" "target/criterion") :=
  (claim_C6_missing_baseline [] "target/criterion" "main" "pr" 5).1 rfl

/-- C9: when both snapshots are non-empty but no identity passes the
Subsystem Filter, the run succeeds, both artifacts are produced, and the
document records zero totals, an empty results list and no regression. -/
theorem claim_C9_empty_filter (walk : List (List String × ℚ))
    (criterion_dir base pr : String) (θ : ℚ)
    (h1 : find_baselines walk base ≠ []) (h2 : find_baselines walk pr ≠ [])
    (h3 : ∀ key, (key ∈ dictKeys (find_baselines walk base) ∨
                  key ∈ dictKeys (find_baselines walk pr)) →
          is_gitr_bench key = false) :
    run walk criterion_dir base pr θ =
      .ok ⟨⟨false, θ, 0, 0, 0, []⟩, mdLines θ [], consoleLines θ []⟩ := by
  have hbr : buildResults (find_baselines walk base)
      (find_baselines walk pr) θ = .ok [] :=
    compareAll_all_filtered fun k hk => h3 k (mem_allKeys.mp hk)
  simp only [run]
  rw [if_neg h1, if_neg h2, hbr]
  simp [mkJsonOutput]

/-- C9 witness: two non-empty snapshots holding only the non-gitr identity
`cgit/x` produce a successful empty report. -/
theorem claim_C9_empty_filter_witness :
    run [(["cgit", "x", "main"], 1), (["cgit", "x", "pr"], 2)] "d"
        "main" "pr" 5 =
      .ok ⟨⟨false, 5, 0, 0, 0, []⟩, mdLines 5 [], consoleLines 5 []⟩ :=
  claim_C9_empty_filter [(["cgit", "x", "main"], 1), (["cgit", "x", "pr"], 2)]
    "d" "main" "pr" 5 (by decide) (by decide) (by
      intro key hk
      have e1 : dictKeys (find_baselines
          [(["cgit", "x", "main"], 1), (["cgit", "x", "pr"], 2)] "main") =
          ["cgit/x"] := by decide
      have e2 : dictKeys (find_baselines
          [(["cgit", "x", "main"], 1), (["cgit", "x", "pr"], 2)] "pr") =
          ["cgit/x"] := by decide
      rw [e1, e2] at hk
      have hkey : key = "cgit/x" := by
        rcases hk with h | h <;> simpa using h
      subst hkey
      decide)


/-- C2: in a successful comparison, every identity in the union of the two
key sets that passes the Subsystem Filter appears in exactly one Comparison
Result; identities failing the filter appear in none; and each result's
fields are determined by presence: NEW iff base absent (candidate then
present), REMOVED iff base present and candidate absent, one of
REGRESSION/IMPROVEMENT/OK when both are present, with `pct_change` non-null
iff both timings are present. -/
theorem claim_C2_partition (base_results pr_results : List (String × ℚ))
    (θ : ℚ) (rs : List CompResult)
    (h : buildResults base_results pr_results θ = .ok rs) :
    (∀ key, (key ∈ dictKeys base_results ∨ key ∈ dictKeys pr_results) →
      is_gitr_bench key = true →
      (rs.countP fun r => r.benchmark == key) = 1) ∧
    (∀ key, is_gitr_bench key = false →
      (rs.countP fun r => r.benchmark == key) = 0) ∧
    (∀ r ∈ rs,
      is_gitr_bench r.benchmark = true ∧
      (r.benchmark ∈ dictKeys base_results ∨
        r.benchmark ∈ dictKeys pr_results) ∧
      r.base_ns = dictGet base_results r.benchmark ∧
      r.pr_ns = dictGet pr_results r.benchmark ∧
      (r.pct_change.isSome = true ↔
        (r.base_ns.isSome = true ∧ r.pr_ns.isSome = true)) ∧
      (r.base_ns = none → r.pr_ns.isSome = true ∧ r.status = .NEW) ∧
      (r.base_ns.isSome = true → r.pr_ns = none → r.status = .REMOVED) ∧
      (r.base_ns.isSome = true → r.pr_ns.isSome = true →
        (r.status = .REGRESSION ∨ r.status = .IMPROVEMENT ∨
          r.status = .OK))) := by
  have hcount := compareAll_countP h
  refine ⟨?_, ?_, ?_⟩
  · intro key hmem hg
    rw [hcount key,
      countP_keyed_eq_one hg (nodup_allKeys _ _) (mem_allKeys.mpr hmem)]
  · intro key hg
    rw [hcount key]
    apply List.countP_eq_zero.mpr
    intro k hk
    simp only [Bool.and_eq_true, beq_iff_eq, not_and]
    intro hkey
    subst hkey
    simp [hg]
  · intro r hr
    obtain ⟨k, hk, hck⟩ := compareAll_ok_forall h r hr
    obtain ⟨hbench, hg, hbase, hpr, hpct, hnew, hrem, hboth⟩ :=
      compareKey_ok_some_spec hck
    subst hbench
    refine ⟨hg, mem_allKeys.mp hk, hbase, hpr, hpct, ?_, hrem, ?_⟩
    · intro hbn
      refine ⟨?_, hnew hbn⟩
      have hget : dictGet base_results r.benchmark = none := by
        rw [← hbase]
        exact hbn
      have hnotb : r.benchmark ∉ dictKeys base_results :=
        dictGet_eq_none_iff.mp hget
      rcases mem_allKeys.mp hk with hm | hm
      · exact absurd hm hnotb
      · rw [hpr]
        exact dictGet_isSome_iff.mpr hm
    · intro hbs hps
      obtain ⟨bv, hbv⟩ := Option.isSome_iff_exists.mp hbs
      obtain ⟨pv, hpv⟩ := Option.isSome_iff_exists.mp hps
      obtain ⟨_, hstat, _⟩ := hboth bv pv hbv hpv
      rw [hstat]
      exact classify_cases θ _

/-- C2 witness: with base `{gitr/A: 100}` and candidate `{gitr/C: 50}`,
the run yields exactly one REMOVED and one NEW result, and `gitr/A`
appears in exactly one result. -/
theorem claim_C2_partition_witness :
    buildResults [("gitr/A", 100)] [("gitr/C", 50)] 5 =
      .ok [⟨"gitr/A", some 100, none, none, .REMOVED⟩,
           ⟨"gitr/C", none, some 50, none, .NEW⟩] ∧
    ([(⟨"gitr/A", some 100, none, none, .REMOVED⟩ : CompResult),
      ⟨"gitr/C", none, some 50, none, .NEW⟩].countP
        fun r => r.benchmark == "gitr/A") = 1 := by
  have heval : buildResults [("gitr/A", 100)] [("gitr/C", 50)] 5 =
      .ok [⟨"gitr/A", some 100, none, none, .REMOVED⟩,
           ⟨"gitr/C", none, some 50, none, .NEW⟩] := by
    have hall : allKeys [("gitr/A", 100)] [("gitr/C", 50)] =
        ["gitr/A", "gitr/C"] := by decide
    have h1 : compareKey [("gitr/A", 100)] [("gitr/C", 50)] 5 "gitr/A" =
        .ok (some ⟨"gitr/A", some 100, none, none, .REMOVED⟩) :=
      compareKey_of_pr_none (by decide) (by decide) (by decide)
    have h2 : compareKey [("gitr/A", 100)] [("gitr/C", 50)] 5 "gitr/C" =
        .ok (some ⟨"gitr/C", none, some 50, none, .NEW⟩) :=
      compareKey_of_base_none (by decide) (by decide)
    simp only [buildResults, hall, compareAll, h1, h2]
  exact ⟨heval, (claim_C2_partition [("gitr/A", 100)] [("gitr/C", 50)] 5 _
    heval).1 "gitr/A" (Or.inl (by decide)) (by decide)⟩

theorem rhe_intCast (n : ℤ) : rhe ((n : ℚ)) = n := by
  rw [rhe, Int.floor_intCast, sub_self]
  norm_num

theorem round2_eq_of_mul100 (n : ℤ) {q : ℚ} (h : q * 100 = ((n : ℚ))) :
    round2 q = ((n : ℚ)) / 100 := by
  rw [round2, h, rhe_intCast]

theorem reprPct_eq_of_mul100 (n : ℤ) {q : ℚ} (h : q * 100 = ((n : ℚ))) :
    reprPct q =
      (if n < 0 then "-" else "") ++ toString (n.natAbs / 100) ++ "." ++
        (if n.natAbs % 10 = 0 then toString (n.natAbs % 100 / 10)
         else pad2 (n.natAbs % 100)) := by
  rw [reprPct, h, rhe_intCast]

/-- C8 counterexample: at threshold `-1`, equal timings give a REGRESSION
with `pct_change = 0`, and the regressions table and console line render
this zero change as `+0.0%` — a zero value rendered with a leading plus
sign, contradicting the claim that zero is rendered unsigned. -/
theorem claim_C8_counterexample :
    buildResults [("gitr/a", 100)] [("gitr/a", 100)] (-1) =
      .ok [⟨"gitr/a", some 100, some 100, some 0, .REGRESSION⟩] ∧
    regressionChangeCell ⟨"gitr/a", some 100, some 100, some 0, .REGRESSION⟩ =
      "+0.0%" ∧
    consoleRegressionLine
        ⟨"gitr/a", some 100, some 100, some 0, .REGRESSION⟩ =
      "  gitr/a: +0.0%" ∧
    regressionRow ⟨"gitr/a", some 100, some 100, some 0, .REGRESSION⟩ =
      "| `gitr/a` | 100ns | 100ns | +0.0% |" ∧
    regressionRow ⟨"gitr/a", some 100, some 100, some 0, .REGRESSION⟩ ∈
      mdLines (-1) [⟨"gitr/a", some 100, some 100, some 0, .REGRESSION⟩] := by
  have hrp : reprPct 0 = "0.0" := by
    rw [reprPct_eq_of_mul100 0 (by norm_num)]
    decide
  have hpct : ((100 : ℚ) - 100) / 100 * 100 = 0 := by norm_num
  have hr2 : round2 (((100 : ℚ) - 100) / 100 * 100) = 0 := by
    rw [round2_eq_of_mul100 0 (by norm_num)]
    norm_num
  have hcl : classify (-1) (((100 : ℚ) - 100) / 100 * 100) = .REGRESSION := by
    rw [classify, hpct]
    rw [if_pos (by norm_num)]
  have hrhe100 : rhe ((100 : ℚ)) = 100 := by
    rw [show ((100 : ℚ)) = (((100 : ℤ) : ℚ)) by norm_num, rhe_intCast]
  have hfmt : format_ns 100 = "100ns" := by
    rw [format_ns, if_neg (by norm_num), if_neg (by norm_num),
      if_neg (by norm_num), fmt0, hrhe100]
    decide
  have hcell : regressionChangeCell
      ⟨"gitr/a", some 100, some 100, some 0, .REGRESSION⟩ =
      "+0.0%" := by
    simp only [regressionChangeCell, Option.getD_some]
    rw [hrp]
    decide
  have hrow : regressionRow
      ⟨"gitr/a", some 100, some 100, some 0, .REGRESSION⟩ =
      "| `gitr/a` | 100ns | 100ns | +0.0% |" := by
    simp only [regressionRow, regressionChangeCell, Option.getD_some]
    rw [hfmt, hrp]
    decide
  refine ⟨?_, hcell, ?_, hrow, ?_⟩
  · have hall : allKeys [("gitr/a", 100)] [("gitr/a", 100)] = ["gitr/a"] := by
      decide
    have h1 : compareKey [("gitr/a", 100)] [("gitr/a", 100)] (-1) "gitr/a" =
        .ok (some ⟨"gitr/a", some 100, some 100,
          some (round2 (((100 : ℚ) - 100) / 100 * 100)),
          classify (-1) (((100 : ℚ) - 100) / 100 * 100)⟩) :=
      compareKey_of_both (by decide) (by decide) (by decide) (by norm_num)
    rw [hr2, hcl] at h1
    simp only [buildResults, hall, compareAll, h1]
  · simp only [consoleRegressionLine, Option.getD_some]
    rw [hrp]
    decide
  · simp [mdLines]

/-- C8 (amended): a positive `pct_change` is rendered with a leading plus
sign in the full results table, the regressions table and the console
lines; a zero or negative `pct_change` is rendered unsigned in the full
results table and the improvements table, but the regressions table and the
console per-regression lines prepend `+` unconditionally (visible only when
the threshold is below 0.005, since only then can a regression's rounded
change be zero or negative). -/
theorem claim_C8_amended (r : CompResult) (pc : ℚ)
    (h : r.pct_change = some pc) :
    (0 < pc →
      allResultsChangeCell r = "+" ++ reprPct pc ++ "%" ∧
      regressionChangeCell r = "+" ++ reprPct pc ++ "%" ∧
      consoleRegressionLine r =
        "  " ++ r.benchmark ++ ": +" ++ reprPct pc ++ "%") ∧
    (pc ≤ 0 →
      allResultsChangeCell r = reprPct pc ++ "%" ∧
      improvementChangeCell r = reprPct pc ++ "%" ∧
      regressionChangeCell r = "+" ++ reprPct pc ++ "%" ∧
      consoleRegressionLine r =
        "  " ++ r.benchmark ++ ": +" ++ reprPct pc ++ "%") := by
  constructor
  · intro hpos
    refine ⟨?_, ?_, ?_⟩
    · simp only [allResultsChangeCell, h]
      rw [if_pos hpos]
    · simp only [regressionChangeCell, h, Option.getD_some]
    · simp only [consoleRegressionLine, h, Option.getD_some]
  · intro hnp
    refine ⟨?_, ?_, ?_, ?_⟩
    · simp only [allResultsChangeCell, h]
      rw [if_neg (not_lt.mpr hnp), String.empty_append]
    · simp only [improvementChangeCell, h, Option.getD_some]
    · simp only [regressionChangeCell, h, Option.getD_some]
    · simp only [consoleRegressionLine, h, Option.getD_some]

/-- C8 witness: a regression with `pct_change = 12` renders `+` in the
full results table, the regressions table, and the console line. -/
theorem claim_C8_amended_witness :
    ((0 : ℚ) < 12 →
      allResultsChangeCell
          ⟨"gitr/a", some 100, some 112, some 12, .REGRESSION⟩ =
        "+" ++ reprPct 12 ++ "%" ∧
      regressionChangeCell
          ⟨"gitr/a", some 100, some 112, some 12, .REGRESSION⟩ =
        "+" ++ reprPct 12 ++ "%" ∧
      consoleRegressionLine
          ⟨"gitr/a", some 100, some 112, some 12, .REGRESSION⟩ =
        "  " ++ "gitr/a" ++ ": +" ++ reprPct 12 ++ "%") ∧
    ((12 : ℚ) ≤ 0 →
      allResultsChangeCell
          ⟨"gitr/a", some 100, some 112, some 12, .REGRESSION⟩ =
        reprPct 12 ++ "%" ∧
      improvementChangeCell
          ⟨"gitr/a", some 100, some 112, some 12, .REGRESSION⟩ =
        reprPct 12 ++ "%" ∧
      regressionChangeCell
          ⟨"gitr/a", some 100, some 112, some 12, .REGRESSION⟩ =
        "+" ++ reprPct 12 ++ "%" ∧
      consoleRegressionLine
          ⟨"gitr/a", some 100, some 112, some 12, .REGRESSION⟩ =
        "  " ++ "gitr/a" ++ ": +" ++ reprPct 12 ++ "%") :=
  claim_C8_amended ⟨"gitr/a", some 100, some 112, some 12, .REGRESSION⟩ 12 rfl


end BenchCompare
